import Mathlib

/-!
# Verification of `enterprise_extensions.frequentist.optimal_statistic`

A shallow embedding of the `OptimalStatistic` class
(`src/enterprise_extensions/frequentist/optimal_statistic.py`) and proofs
about it.  Numeric values are modelled as rationals; numpy/scipy library
primitives (`np.sqrt`, `np.arccos`, `scipy.linalg.cho_factor`, …) and the
`enterprise` noise-model adapter are external collaborators and enter the
embedding as explicit function-valued fields of an environment record, so
every definition stays computable and the control flow of the Python
source is translated statement by statement.
-/

namespace OptStat

/-- Numeric vectors (1-d numpy arrays) are lists of rationals. -/
abbrev Vec := List ℚ

/-- Numeric matrices (2-d numpy arrays) are lists of row vectors. -/
abbrev Mat := List Vec

/-- A Python `dict` of parameter values, as an association list; lookup
returns the first binding of a name. -/
abbrev Params := List (String × ℚ)

/-- Dictionary access `params[name]` / `name in params.keys()`: first-match association
lookup. -/
def lookupParam (ps : Params) (n : String) : Option ℚ :=
  match ps with
  | [] => none
  | (m, v) :: rest => if m = n then some v else lookupParam rest n

/-- Python `dict.update(other)`: bindings of `other` shadow those of the base
dict. -/
def dictUpdate (base other : Params) : Params := other ++ base

/-- Python `dict(zip(names, vals))`: pair names with values up to the shorter of
the two lists (Python `zip` truncates silently). -/
def zipToDict (names : List String) (vals : List ℚ) : Params :=
  names.zip vals

/-- The `np.dot` of two vectors. -/
def dotQ (a b : Vec) : ℚ := (List.zipWith (· * ·) a b).sum

/-- Elementwise product of two vectors (numpy `*` broadcasting on 1-d
arrays). -/
def hadamard (a b : Vec) : Vec := List.zipWith (· * ·) a b

/-- Column `c` of a matrix. -/
def colOf (m : Mat) (c : ℕ) : Vec := m.map (fun r => r.getD c 0)

/-- Matrix transpose (`A.T`). -/
def transposeM (m : Mat) : Mat :=
  (List.range (m.getD 0 []).length).map (fun c => colOf m c)

/-- The `np.dot` matrix–vector product. -/
def matVec (m : Mat) (v : Vec) : Vec := m.map (fun r => dotQ r v)

/-- The `np.dot` matrix–matrix product. -/
def matMul (a b : Mat) : Mat :=
  a.map (fun row => (List.range (b.getD 0 []).length).map (fun c => dotQ row (colOf b c)))

/-- Elementwise matrix sum (`+`). -/
def matAdd (a b : Mat) : Mat := List.zipWith (fun r s => List.zipWith (· + ·) r s) a b

/-- Elementwise vector difference (`-`). -/
def vecSub (a b : Vec) : Vec := List.zipWith (· - ·) a b

/-- Elementwise matrix difference (`-`). -/
def matSub (a b : Mat) : Mat := List.zipWith (fun r s => List.zipWith (· - ·) r s) a b

/-- The `np.diag` of a vector. -/
def diagMat (v : Vec) : Mat :=
  (List.range v.length).map (fun i =>
    (List.range v.length).map (fun j => if i = j then v.getD i 0 else 0))

/-- The `np.trace` of a matrix. -/
def traceQ (m : Mat) : ℚ :=
  ((List.range m.length).map (fun i => (m.getD i []).getD i 0)).sum

/-- Scale every row of a matrix elementwise by a vector
(`Z * phi[None, :]`, numpy row broadcasting). -/
def rowScale (m : Mat) (v : Vec) : Mat := m.map (fun r => hadamard r v)

/-- Python exceptions relevant to this module: `np.linalg.LinAlgError`
(the only class the `except` clause in `compute_os` catches) and any other
exception, tagged by an opaque code. -/
inductive PyErr where
  | linAlgError : PyErr
  | otherError : ℕ → PyErr
deriving DecidableEq, Repr

/-- What `pta.get_phiinv` returns per pulsar: either a 1-d array (`ndim == 1`)
or a dense matrix. -/
inductive PhiInv where
  | diag : Vec → PhiInv
  | dense : Mat → PhiInv
deriving Repr

/-- The fixed, per-instance state of an `OptimalStatistic` object:
everything `__init__` stores that `compute_os` reads.  `sample` models
`par.sample()`, the prior draw for the parameter of a given name, fixed
for the call under consideration; `orf` is the overlap-reduction function
selected at construction (`utils.hd_orf` / `dipole_orf` /
`monopole_orf`). -/
structure OSModel where
  param_names : List String
  sample : String → ℚ
  npsr : ℕ
  psrlocs : List Vec
  orf : Vec → Vec → ℚ
  freqs : List ℚ
  gamma_common : Option ℚ

/-- The external collaborators of `compute_os`: the `enterprise` noise
model adapter (`get_TNr`, `get_TNT`, `get_FNr`, `get_FNF`, `get_FNT`,
`get_phiinv`, `map_params`), the scipy/numpy solvers, and numpy scalar
primitives.  Each solver returns `Except PyErr` to model Python
exceptions.  All adapter accessors are functions of the parameter
assignment they are evaluated at. -/
structure Env where
  TNrs : Params → List Vec
  TNTs : Params → List Mat
  FNrs : Params → List Vec
  FNFs : Params → List Mat
  FNTs : Params → List Mat
  phiinvs : Params → List PhiInv
  map_params : List ℚ → Params
  choFactor : Mat → Except PyErr Mat
  choSolveV : Mat → Vec → Except PyErr Vec
  choSolveM : Mat → Mat → Except PyErr Mat
  linSolveV : Mat → Vec → Except PyErr Vec
  linSolveM : Mat → Mat → Except PyErr Mat
  powerlaw : List ℚ → Option ℚ → List ℚ
  sqrtQ : ℚ → ℚ
  arccosQ : ℚ → ℚ

/-- Modelled from the spec: `enterprise`'s evaluation of the model at a
parameter assignment (the bodies of `get_TNr`, `get_phiinv`, … are not in
this repository).  A model parameter present in the supplied assignment is
used as given; a model parameter absent from it is given a value randomly
drawn from its prior (the draw being `OSModel.sample`). -/
def resolveParams (os : OSModel) (ps : Params) : Params :=
  os.param_names.map (fun n => (n, (lookupParam ps n).getD (os.sample n)))

/-- The warning text of `compute_os` for a missing parameter name
(`'… is not included in the parameter dictionary. Drawing a random
value.'`). -/
def missingMsg (n : String) : String :=
  n ++ " is not included in the parameter dictionary. Drawing a random value."

/-- Lines 95–107 of `compute_os`: with no dictionary supplied, build one by
sampling every model parameter (no warning); with a dictionary supplied,
keep it unchanged and emit one warning per model parameter name missing
from it. -/
def paramCheck (os : OSModel) (params? : Option Params) : Params × List String :=
  match params? with
  | none => (os.param_names.map (fun n => (n, os.sample n)), [])
  | some ps =>
      (ps, (os.param_names.filter (fun n => (lookupParam ps n).isNone)).map missingMsg)

/-- Line 121: `Sigma = TNT + (np.diag(phiinv) if phiinv.ndim == 1 else phiinv)`
(line 121). -/
def sigmaOf (TNT : Mat) (phiinv : PhiInv) : Mat :=
  matAdd TNT (match phiinv with
    | .diag v => diagMat v
    | .dense m => m)

/-- The `try` block of lines 122–125: Cholesky-factor `Sigma` and solve
for `TNr` and `FNT.T`; the first raised exception aborts the block. -/
def choAttempt (env : Env) (Sigma : Mat) (TNr : Vec) (FNT : Mat) :
    Except PyErr (Vec × Mat) := do
  let cf ← env.choFactor Sigma
  let sTNr ← env.choSolveV cf TNr
  let sTNF ← env.choSolveM cf (transposeM FNT)
  pure (sTNr, sTNF)

/-- The `except np.linalg.LinAlgError` fallback of lines 126–128: general
dense solves against `Sigma` itself. -/
def denseAttempt (env : Env) (Sigma : Mat) (TNr : Vec) (FNT : Mat) :
    Except PyErr (Vec × Mat) := do
  let sTNr ← env.linSolveV Sigma TNr
  let sTNF ← env.linSolveM Sigma (transposeM FNT)
  pure (sTNr, sTNF)

/-- Lines 130–132: from the solved products, form
`X = FNr − FNT·Sigma⁻¹·TNr` and `Z = FNF − FNT·Sigma⁻¹·FNT.T`. -/
def buildXZ (FNr : Vec) (FNF FNT : Mat) (s : Vec × Mat) : Vec × Mat :=
  (vecSub FNr (matVec FNT s.1), matSub FNF (matMul FNT s.2))

/-- One iteration of the per-pulsar loop (lines 119–132): build `Sigma`,
attempt the Cholesky path, on `LinAlgError` retry with the dense solver;
any other exception, and any exception of the fallback itself,
propagates. -/
def solveOne (env : Env) (TNr : Vec) (TNT : Mat) (FNr : Vec) (FNF FNT : Mat)
    (phiinv : PhiInv) : Except PyErr (Vec × Mat) :=
  let Sigma := sigmaOf TNT phiinv
  match choAttempt env Sigma TNr FNT with
  | .ok s => .ok (buildXZ FNr FNF FNT s)
  | .error .linAlgError =>
      (denseAttempt env Sigma TNr FNT).map (buildXZ FNr FNF FNT)
  | .error e => .error e

/-- The `for … in zip(TNrs, TNTs, FNrs, FNFs, FNTs, phiinvs)` loop of
lines 118–132, accumulating the `X` and `Z` lists; `zip` stops at the
shortest list. -/
def xzLoop (env : Env) : List Vec → List Mat → List Vec → List Mat → List Mat →
    List PhiInv → Except PyErr (List Vec × List Mat)
  | TNr :: as, TNT :: bs, FNr :: cs, FNF :: ds, FNT :: es, phi :: fs => do
      let xz ← solveOne env TNr TNT FNr FNF FNT phi
      let rest ← xzLoop env as bs cs ds es fs
      pure (xz.1 :: rest.1, xz.2 :: rest.2)
  | _, _, _, _, _, _ => .ok ([], [])

/-- Lines 109–132 of `compute_os`: fetch the matrix products and the
phi-inverses from the adapter at the resolved assignment and run the
per-pulsar solve loop. -/
def computeXZ (env : Env) (rp : Params) : Except PyErr (List Vec × List Mat) :=
  xzLoop env (env.TNrs rp) (env.TNTs rp) (env.FNrs rp) (env.FNFs rp)
    (env.FNTs rp) (env.phiinvs rp)

/-- The nested pair loop ranges (lines 136–137): all `(ii, jj)` with
`ii < jj < npsr`, `ii` as the ascending outer index. -/
def pairList (n : ℕ) : List (ℕ × ℕ) :=
  (List.range n).flatMap (fun ii => (List.range' (ii + 1) (n - (ii + 1))).map (fun jj => (ii, jj)))

/-- Lines 138–144: the common-process spectral shape `phiIJ` — a unit
amplitude power law at either the per-draw `gw_gamma` from the parameter
dictionary (only when the fixed index is `None` and the key is present) or
the fixed `gamma_common`. -/
def phiIJof (os : OSModel) (env : Env) (ps : Params) : Vec :=
  if os.gamma_common = none ∧ (lookupParam ps "gw_gamma").isSome then
    env.powerlaw os.freqs (lookupParam ps "gw_gamma")
  else
    env.powerlaw os.freqs os.gamma_common

/-- Line 146: `top = np.dot(X[ii], phiIJ * X[jj])`. -/
def pairTop (phiIJ : Vec) (X : List Vec) (p : ℕ × ℕ) : ℚ :=
  dotQ (X.getD p.1 []) (hadamard phiIJ (X.getD p.2 []))

/-- Line 147: `bot = np.trace(np.dot(Z[ii]*phiIJ[None,:], Z[jj]*phiIJ[None,:]))`. -/
def pairBot (phiIJ : Vec) (Z : List Mat) (p : ℕ × ℕ) : ℚ :=
  traceQ (matMul (rowScale (Z.getD p.1 []) phiIJ) (rowScale (Z.getD p.2 []) phiIJ))

/-- The result tuple of `compute_os`
(`xi, rho, sig, OS, OS_sig`). -/
structure OSResult where
  xi : List ℚ
  rho : List ℚ
  sig : List ℚ
  OS : ℚ
  OS_sig : ℚ
deriving Repr, DecidableEq

/-- The ORF value of a pair (line 154). -/
def orfOf (os : OSModel) (p : ℕ × ℕ) : ℚ :=
  os.orf (os.psrlocs.getD p.1 []) (os.psrlocs.getD p.2 [])

/-- Three-list `zipWith`, for the elementwise numpy expression
`rho * ORF / sig**2`. -/
def zipW3 (f : ℚ → ℚ → ℚ → ℚ) : List ℚ → List ℚ → List ℚ → List ℚ
  | a :: as, b :: bs, c :: cs => f a b c :: zipW3 f as bs cs
  | _, _, _ => []

/-- Lines 134–166 of `compute_os`: the pair loop building `rho`, `sig`,
`ORF` and `xi`, followed by the aggregate statistic
`OS = Σ(rho·ORF/sig²)/Σ(ORF²/sig²)` and `OS_sig = 1/sqrt(Σ(ORF²/sig²))`. -/
def buildResult (os : OSModel) (env : Env) (ps : Params) (X : List Vec) (Z : List Mat) :
    OSResult :=
  let phiIJ := phiIJof os env ps
  let pairs := pairList os.npsr
  let rho := pairs.map (fun p => pairTop phiIJ X p / pairBot phiIJ Z p)
  let sig := pairs.map (fun p => 1 / env.sqrtQ (pairBot phiIJ Z p))
  let ORF := pairs.map (fun p => orfOf os p)
  let xi := pairs.map (fun p =>
    env.arccosQ (dotQ (os.psrlocs.getD p.1 []) (os.psrlocs.getD p.2 [])))
  let denom := (List.zipWith (fun o s => o ^ 2 / s ^ 2) ORF sig).sum
  let OS := (zipW3 (fun r o s => r * o / s ^ 2) rho ORF sig).sum / denom
  let OS_sig := 1 / env.sqrtQ denom
  ⟨xi, rho, sig, OS, OS_sig⟩

/-- Method `OptimalStatistic.compute_os`: check/complete the parameter
dictionary (warnings to the first component), resolve it through the
adapter, run the per-pulsar solves, and on success assemble the full
result; a solver exception propagates. -/
def compute_os (os : OSModel) (env : Env) (params? : Option Params) :
    List String × Except PyErr OSResult :=
  let pw := paramCheck os params?
  (pw.2, (computeXZ env (resolveParams os pw.1)).map (fun xz => buildResult os env pw.1 xz.1 xz.2))

/-- Row slice `chain[idx, :-4]`: the selected row with the last four (auxiliary)
columns dropped.  A row shorter than four entries yields the empty
slice, as in Python. -/
def rowVals (chain : List (List ℚ)) (idx : ℕ) : List ℚ :=
  let row := chain.getD idx []
  row.take (row.length - 4)

/-- Column count `chain.shape[1]`. -/
def nCols (chain : List (List ℚ)) : ℕ := (chain.getD 0 []).length

/-- The chain-shape warning text of both driver methods. -/
def chainMsg : String :=
  "MCMC chain does not have the same number of parameters as the model."

/-- Lines 181–185 / 219–223: warn (non-fatally) when the chain's
parameter-column count disagrees with the model's parameter count. -/
def chainWarn (os : OSModel) (chain : List (List ℚ)) : List String :=
  if (nCols chain : ℤ) - 4 ≠ os.param_names.length then [chainMsg] else []

/-- Lines 192–198 / 227–233: build the parameter dictionary for one chain
row — via the adapter's `map_params` (updating the running dict) when no
name list is given, else `dict(zip(param_names, vals))`. -/
def setparsFor (env : Env) (pnames? : Option (List String)) (sp : Params)
    (vals : List ℚ) : Params :=
  match pnames? with
  | none => dictUpdate sp (env.map_params vals)
  | some ns => zipToDict ns vals

/-- The `for ii in range(N)` loop of `compute_noise_marginalized_os`
(lines 187–199): `r` is the stream of row indices produced by
`np.random.randint(0, chain.shape[0])`, one per iteration; `sp` is the
running `setpars` dict.  Warnings of the inner `compute_os` calls are
collected; an exception aborts the loop and propagates. -/
def margGo (os : OSModel) (env : Env) (chain : List (List ℚ))
    (pnames? : Option (List String)) :
    ℕ → (ℕ → ℕ) → Params → List String × Except PyErr (List ℚ × List ℚ)
  | 0, _, _ => ([], .ok ([], []))
  | k + 1, r, sp =>
      let sp' := setparsFor env pnames? sp (rowVals chain (r 0))
      let cw := compute_os os env (some sp')
      match cw.2 with
      | .error e => (cw.1, .error e)
      | .ok res =>
          let rest := margGo os env chain pnames? k (fun i => r (i + 1)) sp'
          (cw.1 ++ rest.1,
           rest.2.map (fun pq => (res.OS :: pq.1, res.OS / res.OS_sig :: pq.2)))

/-- Method `OptimalStatistic.compute_noise_marginalized_os`: emit the shape
warning if needed, then run `N` iterations, each drawing a chain row by
the random index stream and returning the `(OS, OS/OS_sig)` sequences in
draw order. -/
def compute_noise_marginalized_os (os : OSModel) (env : Env)
    (chain : List (List ℚ)) (pnames? : Option (List String)) (NN : ℕ)
    (randIdx : ℕ → ℕ) : List String × Except PyErr (List ℚ × List ℚ) :=
  let inner := margGo os env chain pnames? NN randIdx []
  (chainWarn os chain ++ inner.1, inner.2)

/-- Model of `np.argmax`: index of the first occurrence of the maximum value
(`0` for the empty list, which numpy itself rejects). -/
def argmaxIdx (l : List ℚ) : ℕ :=
  (l.foldl (fun acc v =>
     if v > acc.2.1 then (acc.2.2, v, acc.2.2 + 1)
     else (acc.1, acc.2.1, acc.2.2 + 1))
    ((0 : ℕ), l.getD 0 0, (0 : ℕ))).1

/-- Column slice `chain[:, -4]`: the log-likelihood column. -/
def llCol (chain : List (List ℚ)) : List ℚ :=
  chain.map (fun row => row.getD (nCols chain - 4) 0)

/-- Method `OptimalStatistic.compute_noise_maximized_os` (lines 203–237): select
the row maximizing the log-likelihood column, map it to a parameter
dictionary, run `compute_os` there, and return
`(xi, rho, sig, OS, OS/OS_sig)`. -/
def compute_noise_maximized_os (os : OSModel) (env : Env)
    (chain : List (List ℚ)) (pnames? : Option (List String)) :
    List String × Except PyErr (List ℚ × List ℚ × List ℚ × ℚ × ℚ) :=
  let idx := argmaxIdx (llCol chain)
  let sp := setparsFor env pnames? [] (rowVals chain idx)
  let cw := compute_os os env (some sp)
  (chainWarn os chain ++ cw.1,
   cw.2.map (fun r => (r.xi, r.rho, r.sig, r.OS, r.OS / r.OS_sig)))

/-- The slice of the `enterprise` PTA adapter behind `get_TNr`, `get_TNT`
and `get_FNF`: the raw (uncached) computations and the declared
white-noise parameter-name list that drives cache-key selection. -/
structure NoiseAdapter where
  rawTNr : Params → List Vec
  rawTNT : Params → List Mat
  rawFNF : Params → List Mat
  white_params : List String

/-- A memoization key: the tuple of relevant parameter values. -/
abbrev CacheKey := List (Option ℚ)

/-- The memo table of the `FNF` product. -/
abbrev FNFCache := List (CacheKey × List Mat)

/-- Modelled from the spec: the cache key of
`signal_base.cache_call(['white_params'])` — the values the assignment
gives to the declared white-noise parameter names. -/
def cacheKey (ws : List String) (ps : Params) : CacheKey :=
  ws.map (lookupParam ps)

/-- First-match lookup in the memo table. -/
def findCached (c : FNFCache) (k : CacheKey) : Option (List Mat) :=
  match c with
  | [] => none
  | (k', v) :: rest => if k' = k then some v else findCached rest k

/-- Modelled from the spec: `signal_base.cache_call` memoization (the
decorator body lives in `enterprise`, not in this repository) wrapped
around the `get_FNF` computation of lines 285–292 — on a key hit return
the stored value and leave the cache unchanged; on a miss run the
underlying computation and store the result under the key. -/
def get_FNF (na : NoiseAdapter) (ps : Params) (cache : FNFCache) :
    List Mat × FNFCache :=
  let k := cacheKey na.white_params ps
  match findCached cache k with
  | some v => (v, cache)
  | none => (na.rawFNF ps, (k, na.rawFNF ps) :: cache)

/-- Accessor `get_TNr` (lines 272–273): direct delegation to `self.pta.get_TNr`,
with no cache state of its own. -/
def get_TNr (na : NoiseAdapter) (ps : Params) : List Vec := na.rawTNr ps

/-- Accessor `get_TNT` (lines 294–295): direct delegation to `self.pta.get_TNT`,
with no cache state of its own. -/
def get_TNT (na : NoiseAdapter) (ps : Params) : List Mat := na.rawTNT ps

/-! ## Concrete instances used as evaluation witnesses -/

/-- A concrete two-pulsar engine state. -/
def os2 : OSModel where
  param_names := ["A", "B"]
  sample := fun _ => 5
  npsr := 2
  psrlocs := [[1, 0, 0], [0, 1, 0]]
  orf := fun _ _ => 2
  freqs := [1]
  gamma_common := some (13 / 3)

/-- A concrete adapter/solver environment for `os2`, with all per-pulsar
products one-dimensional. -/
def env2 : Env where
  TNrs := fun _ => [[0], [0]]
  TNTs := fun _ => [[[1]], [[1]]]
  FNrs := fun _ => [[2], [2]]
  FNFs := fun _ => [[[1]], [[1]]]
  FNTs := fun _ => [[[0]], [[0]]]
  phiinvs := fun _ => [.diag [0], .diag [0]]
  map_params := fun vals => zipToDict ["A", "B"] vals
  choFactor := fun m => .ok m
  choSolveV := fun _ _ => .ok [0]
  choSolveM := fun _ _ => .ok [[0]]
  linSolveV := fun _ _ => .ok [0]
  linSolveM := fun _ _ => .ok [[0]]
  powerlaw := fun _ _ => [1]
  sqrtQ := fun q => if q = 1 then 1 else if q = 4 then 2 else 0
  arccosQ := fun _ => 0

/-- A concrete two-row chain with six columns (two parameter columns
plus the four auxiliary columns). -/
def chainEx : List (List ℚ) := [[1, 2, 0, 0, 0, 0], [3, 4, 9, 0, 0, 0]]

/-- The parameter dictionary built by the `params is None` branch of
`compute_os` (lines 95–97): every model parameter mapped to a prior
draw. -/
def sampledParams (os : OSModel) : Params :=
  os.param_names.map (fun n => (n, os.sample n))

/-- An environment whose Cholesky factorization raises the
numerical-singularity error and whose dense solver raises a different
error. -/
def envFail : Env :=
  { env2 with
    choFactor := fun _ => .error .linAlgError
    linSolveV := fun _ _ => .error (.otherError 7) }

/-- The parameter dictionary in force at iteration `m` of the
marginalization loop started with index stream `r` and running dict `sp`
(the `param_names=None` branch accumulates via `dict.update`). -/
def margPars (env : Env) (chain : List (List ℚ)) (pnames? : Option (List String)) :
    (ℕ → ℕ) → Params → ℕ → Params
  | r, sp, 0 => setparsFor env pnames? sp (rowVals chain (r 0))
  | r, sp, m + 1 =>
      margPars env chain pnames? (fun i => r (i + 1))
        (setparsFor env pnames? sp (rowVals chain (r 0))) m

/-- A concrete adapter for the cache witness: `FNF` genuinely depends on
the white-noise parameter `"wn"`. -/
def na0 : NoiseAdapter where
  rawTNr := fun _ => [[1]]
  rawTNT := fun _ => [[[1]]]
  rawFNF := fun ps => [[[(lookupParam ps "wn").getD 0]]]
  white_params := ["wn"]

/-! ## Helper lemmas -/

/-- Strict lexicographic order on index pairs. -/
def lexLtPair (p q : ℕ × ℕ) : Prop := p.1 < q.1 ∨ (p.1 = q.1 ∧ p.2 < q.2)

theorem sum_map_range (f : ℕ → ℕ) (n : ℕ) :
    ((List.range n).map f).sum = ∑ i ∈ Finset.range n, f i := by
  induction n with
  | zero => simp
  | succ n ih =>
      rw [List.range_succ, List.map_append, List.sum_append, Finset.sum_range_succ, ih]
      simp

theorem pairList_length (n : ℕ) : (pairList n).length = n * (n - 1) / 2 := by
  rw [pairList, List.length_flatMap]
  have h1 : List.map (List.length ∘ fun ii =>
        (List.range' (ii + 1) (n - (ii + 1))).map (fun jj => (ii, jj))) (List.range n)
      = (List.range n).map (fun ii => n - 1 - ii) := by
    apply List.map_congr_left
    intro a _
    simp only [Function.comp_apply, List.length_map, List.length_range']
    omega
  rw [h1, sum_map_range, Finset.sum_range_reflect (fun i => i) n, Finset.sum_range_id]

theorem pairList_sorted (n : ℕ) : List.Pairwise lexLtPair (pairList n) := by
  rw [pairList, List.pairwise_flatMap]
  constructor
  · intro ii _
    rw [List.pairwise_map]
    exact (List.pairwise_lt_range' _ _).imp (fun h => Or.inr ⟨rfl, h⟩)
  · refine (List.pairwise_lt_range n).imp ?_
    intro a b hab x hx y hy
    rcases List.mem_map.mp hx with ⟨ja, _, rfl⟩
    rcases List.mem_map.mp hy with ⟨jb, _, rfl⟩
    exact Or.inl hab

theorem pairList_mem (n : ℕ) (p : ℕ × ℕ) : p ∈ pairList n ↔ p.1 < p.2 ∧ p.2 < n := by
  rcases p with ⟨a, b⟩
  rw [pairList, List.mem_flatMap]
  constructor
  · rintro ⟨ii, hii, hp⟩
    rcases List.mem_map.mp hp with ⟨jj, hjj, hrfl⟩
    rcases Prod.mk.injEq .. ▸ hrfl with ⟨h1, h2⟩
    rw [List.mem_range'_1] at hjj
    rw [List.mem_range] at hii
    subst h1; subst h2
    constructor <;> omega
  · rintro ⟨h1, h2⟩
    exact ⟨a, List.mem_range.mpr (by omega),
      List.mem_map.mpr ⟨b, List.mem_range'_1.mpr (by omega), rfl⟩⟩

/-- Destructuring a successful `compute_os` call: the warnings are those
of the parameter check and the result is `buildResult` at the `X`, `Z`
lists produced by the solve loop. -/
theorem compute_os_ok (os : OSModel) (env : Env) (params? : Option Params)
    (w : List String) (r : OSResult)
    (h : compute_os os env params? = (w, .ok r)) :
    ∃ xz, computeXZ env (resolveParams os (paramCheck os params?).1) = .ok xz
      ∧ r = buildResult os env (paramCheck os params?).1 xz.1 xz.2
      ∧ w = (paramCheck os params?).2 := by
  simp only [compute_os] at h
  cases hxz : computeXZ env (resolveParams os (paramCheck os params?).1) with
  | error e =>
      rw [hxz] at h
      simp [Except.map] at h
  | ok xz =>
      rw [hxz] at h
      simp only [Except.map, Prod.mk.injEq, Except.ok.injEq] at h
      exact ⟨xz, rfl, h.2.symm, h.1.symm⟩

/-! ### Evaluation lemmas for the concrete instances -/

theorem env2_TNrs (p : Params) : env2.TNrs p = [[0], [0]] := rfl

theorem env2_TNTs (p : Params) : env2.TNTs p = [[[1]], [[1]]] := rfl

theorem env2_FNrs (p : Params) : env2.FNrs p = [[2], [2]] := rfl

theorem env2_FNFs (p : Params) : env2.FNFs p = [[[1]], [[1]]] := rfl

theorem env2_FNTs (p : Params) : env2.FNTs p = [[[0]], [[0]]] := rfl

theorem env2_phiinvs (p : Params) : env2.phiinvs p = [.diag [0], .diag [0]] := rfl

theorem env2_choFactor (m : Mat) : env2.choFactor m = .ok m := rfl

theorem env2_choSolveV (m : Mat) (v : Vec) : env2.choSolveV m v = .ok [0] := rfl

theorem env2_choSolveM (m b : Mat) : env2.choSolveM m b = .ok [[0]] := rfl

theorem env2_powerlaw (f : List ℚ) (g : Option ℚ) : env2.powerlaw f g = [1] := rfl

theorem env2_sqrtQ (q : ℚ) :
    env2.sqrtQ q = if q = 1 then 1 else if q = 4 then 2 else 0 := rfl

theorem env2_arccosQ (q : ℚ) : env2.arccosQ q = 0 := rfl

theorem os2_npsr : os2.npsr = 2 := rfl

theorem os2_param_names : os2.param_names = ["A", "B"] := rfl

theorem os2_gamma : os2.gamma_common = some (13 / 3) := rfl

theorem os2_orf (a b : Vec) : os2.orf a b = 2 := rfl

theorem os2_psrlocs : os2.psrlocs = [[1, 0, 0], [0, 1, 0]] := rfl

theorem os2_sample (n : String) : os2.sample n = 5 := rfl

theorem pairList_two : pairList 2 = [(0, 1)] := by
  simp [pairList, List.range_succ, List.range_zero, List.range']

theorem solveOne_eval : solveOne env2 [0] [[1]] [2] [[1]] [[0]] (.diag [0])
    = .ok ([2], [[1]]) := by
  simp [solveOne, sigmaOf, matAdd, diagMat, choAttempt, env2_choFactor,
    env2_choSolveV, env2_choSolveM, buildXZ, vecSub,
    matVec, dotQ, matSub, matMul, colOf, transposeM, hadamard,
    List.range_succ, List.range_zero, Bind.bind, Except.bind, Pure.pure, Except.pure]

theorem computeXZ_eval (rp : Params) :
    computeXZ env2 rp = .ok ([[2], [2]], [[[1]], [[1]]]) := by
  simp [computeXZ, env2_TNrs, env2_TNTs, env2_FNrs, env2_FNFs, env2_FNTs,
    env2_phiinvs, xzLoop, solveOne_eval, Bind.bind, Except.bind, Pure.pure, Except.pure]

theorem buildResult_eval (ps : Params) :
    buildResult os2 env2 ps [[2], [2]] [[[1]], [[1]]] = ⟨[0], [4], [1], 2, 1/2⟩ := by
  norm_num [buildResult, pairList_two, os2_npsr, phiIJof, os2_gamma, env2_powerlaw,
    pairTop, pairBot, dotQ, hadamard, rowScale, matMul, colOf, traceQ, orfOf,
    os2_orf, os2_psrlocs, env2_sqrtQ, env2_arccosQ, zipW3,
    List.range_succ, List.range_zero]

theorem paramCheck_full :
    paramCheck os2 (some [("A", 1), ("B", 2)]) = ([("A", 1), ("B", 2)], []) := by
  simp [paramCheck, os2_param_names, lookupParam]

theorem compute_os_eval_full :
    compute_os os2 env2 (some [("A", 1), ("B", 2)])
      = ([], .ok ⟨[0], [4], [1], 2, 1/2⟩) := by
  simp [compute_os, paramCheck_full, computeXZ_eval, buildResult_eval, Except.map]

/-- Lookup in a dictionary built by mapping names to values. -/
theorem lookupParam_map_self (f : String → ℚ) (l : List String) (n : String)
    (hn : n ∈ l) :
    lookupParam (l.map (fun m => (m, f m))) n = some (f n) := by
  induction l with
  | nil => cases hn
  | cons m t ih =>
      simp only [List.map_cons, lookupParam]
      by_cases h : m = n
      · subst h; simp
      · rw [if_neg h]
        rcases List.mem_cons.mp hn with h1 | h1
        · exact absurd h1.symm h
        · exact ih h1

/-- The closed-form single-pair aggregate: with one pair of weight
`ORF²/sig²`, the inverse-variance-weighted mean times the ORF value
recovers the pair's `rho`. -/
theorem single_pair_aggregate (a o S : ℚ) (hS : S ≠ 0) (ho : o ≠ 0) :
    a = (a * o / (1 / S) ^ 2) / (o ^ 2 / (1 / S) ^ 2) * o := by
  have h1 : (1 / S) ^ 2 ≠ 0 := pow_ne_zero _ (one_div_ne_zero hS)
  field_simp
  ring

/-! ## Claim theorems -/

/-- C6: For every model with `P ≥ 2` pulsars, each of the per-pair arrays
returned by `compute_os` (angular separation `xi`, correlation `rho`,
uncertainty `sig`) has exactly `P(P−1)/2` entries, and the fixed pair
enumeration they follow lists exactly the unordered pairs `(i, j)` with
`i < j < P`, in strictly lexicographic order with `i` as the ascending outer
index. -/
theorem compute_os_pair_arrays (os : OSModel) (env : Env) (params? : Option Params)
    (w : List String) (r : OSResult) (hP : 2 ≤ os.npsr)
    (h : compute_os os env params? = (w, .ok r)) :
    r.xi.length = os.npsr * (os.npsr - 1) / 2
    ∧ r.rho.length = os.npsr * (os.npsr - 1) / 2
    ∧ r.sig.length = os.npsr * (os.npsr - 1) / 2
    ∧ List.Pairwise lexLtPair (pairList os.npsr)
    ∧ (∀ p : ℕ × ℕ, p ∈ pairList os.npsr ↔ p.1 < p.2 ∧ p.2 < os.npsr) := by
  obtain ⟨xz, hxz, hr, hw⟩ := compute_os_ok os env params? w r h
  subst hr
  refine ⟨?_, ?_, ?_, pairList_sorted _, fun p => pairList_mem _ p⟩ <;>
    simp [buildResult, pairList_length]

/-- Witness for C6 at the concrete two-pulsar instance. -/
theorem compute_os_pair_arrays_witness :
    (⟨[0], [4], [1], 2, 1/2⟩ : OSResult).rho.length = os2.npsr * (os2.npsr - 1) / 2 :=
  (compute_os_pair_arrays os2 env2 (some [("A", 1), ("B", 2)]) []
    ⟨[0], [4], [1], 2, 1/2⟩ (by decide) compute_os_eval_full).2.1

/-- C5: For every successful `compute_os` call, the aggregate statistic
equals the inverse-variance-weighted combination
`OS = Σ(rho·ORF/sig²) / Σ(ORF²/sig²)` and its uncertainty equals
`OS_sig = 1/sqrt(Σ(ORF²/sig²))`, the sums ranging over the returned pulsar
pairs. -/
theorem compute_os_aggregate (os : OSModel) (env : Env) (params? : Option Params)
    (w : List String) (r : OSResult)
    (h : compute_os os env params? = (w, .ok r)) :
    r.OS = (zipW3 (fun a o s => a * o / s ^ 2) r.rho
              ((pairList os.npsr).map (orfOf os)) r.sig).sum
        / (List.zipWith (fun o s => o ^ 2 / s ^ 2)
              ((pairList os.npsr).map (orfOf os)) r.sig).sum
    ∧ r.OS_sig = 1 / env.sqrtQ
        ((List.zipWith (fun o s => o ^ 2 / s ^ 2)
              ((pairList os.npsr).map (orfOf os)) r.sig).sum) := by
  obtain ⟨xz, hxz, hr, hw⟩ := compute_os_ok os env params? w r h
  subst hr
  exact ⟨rfl, rfl⟩

/-- Witness for C5 at the concrete two-pulsar instance. -/
theorem compute_os_aggregate_witness :
    (⟨[0], [4], [1], 2, 1/2⟩ : OSResult).OS
      = (zipW3 (fun a o s => a * o / s ^ 2) (⟨[0], [4], [1], 2, 1/2⟩ : OSResult).rho
          ((pairList os2.npsr).map (orfOf os2)) (⟨[0], [4], [1], 2, 1/2⟩ : OSResult).sig).sum
        / (List.zipWith (fun o s => o ^ 2 / s ^ 2)
          ((pairList os2.npsr).map (orfOf os2)) (⟨[0], [4], [1], 2, 1/2⟩ : OSResult).sig).sum :=
  (compute_os_aggregate os2 env2 (some [("A", 1), ("B", 2)]) []
    ⟨[0], [4], [1], 2, 1/2⟩ compute_os_eval_full).1

/-- C2 counterexample: A two-pulsar model (exactly one unordered pair) on
which `compute_os` returns `rho = [4]` but `OS = 2`: the single-pair aggregate
is `rho/ORF` (here `ORF = 2`), so `rho` does not equal `OS`. -/
theorem twoPulsar_rho_ne_OS :
    os2.npsr = 2
    ∧ compute_os os2 env2 (some [("A", 1), ("B", 2)])
        = ([], .ok ⟨[0], [4], [1], 2, 1/2⟩)
    ∧ (⟨[0], [4], [1], 2, 1/2⟩ : OSResult).rho.getD 0 0
        ≠ (⟨[0], [4], [1], 2, 1/2⟩ : OSResult).OS :=
  ⟨rfl, compute_os_eval_full, by decide⟩

/-- C2 (amended): For every 2-pulsar model, the single pair's correlation
coefficient equals the aggregate statistic scaled by the pair's ORF value,
`rho = OS · ORF` (equivalently `OS = rho/ORF`); `rho` coincides with `OS`
exactly when that ORF value is 1, not in general. -/
theorem twoPulsar_rho_eq_OS_mul_orf (os : OSModel) (env : Env)
    (params? : Option Params) (w : List String) (r : OSResult)
    (hn : os.npsr = 2) (h : compute_os os env params? = (w, .ok r))
    (hs : r.sig.getD 0 0 ≠ 0) (ho : orfOf os (0, 1) ≠ 0) :
    r.rho.getD 0 0 = r.OS * orfOf os (0, 1) := by
  obtain ⟨xz, hxz, hr, hw⟩ := compute_os_ok os env params? w r h
  subst hr
  have hpairs : pairList os.npsr = [(0, 1)] := by rw [hn]; rfl
  simp only [buildResult, hpairs, List.map_cons, List.map_nil, zipW3,
    List.zipWith_cons_cons, List.zipWith_nil_right, List.sum_cons, List.sum_nil,
    add_zero, List.getD_cons_zero] at hs ⊢
  have hsq : env.sqrtQ (pairBot (phiIJof os env (paramCheck os params?).1) xz.2 (0, 1)) ≠ 0 := by
    intro h0
    apply hs
    rw [h0]
    norm_num
  exact single_pair_aggregate _ _ _ hsq ho

/-- Witness for the amended C2 at the concrete two-pulsar instance:
`rho = 4 = 2 · 2 = OS · ORF`. -/
theorem twoPulsar_rho_eq_OS_mul_orf_witness :
    (⟨[0], [4], [1], 2, 1/2⟩ : OSResult).rho.getD 0 0
      = (⟨[0], [4], [1], 2, 1/2⟩ : OSResult).OS * orfOf os2 (0, 1) :=
  twoPulsar_rho_eq_OS_mul_orf os2 env2 (some [("A", 1), ("B", 2)]) []
    ⟨[0], [4], [1], 2, 1/2⟩ rfl compute_os_eval_full (by decide) (by decide)

/-- C1: When `compute_os` is given a parameter dictionary that omits at
least one model parameter name, the call does not fail at the check: it
emits exactly one (non-fatal) warning per missing name, the downstream
assignment gives every missing parameter a randomly drawn substitute value,
and the computation proceeds to the main solve, whose success yields a
normal result. -/
theorem compute_os_missing_param_warns (os : OSModel) (env : Env) (ps : Params)
    (hmiss : os.param_names.filter (fun n => (lookupParam ps n).isNone) ≠ []) :
    (compute_os os env (some ps)).1
      = (os.param_names.filter (fun n => (lookupParam ps n).isNone)).map missingMsg
    ∧ (∀ n ∈ os.param_names.filter (fun n => (lookupParam ps n).isNone),
        lookupParam (resolveParams os ps) n = some (os.sample n))
    ∧ (∀ xz, computeXZ env (resolveParams os ps) = .ok xz →
        (compute_os os env (some ps)).2 = .ok (buildResult os env ps xz.1 xz.2)) := by
  refine ⟨rfl, ?_, ?_⟩
  · intro n hn
    rcases List.mem_filter.mp hn with ⟨hmem, hnone⟩
    have hl := lookupParam_map_self
      (fun m => (lookupParam ps m).getD (os.sample m)) os.param_names n hmem
    rw [resolveParams, hl]
    simp only [Option.isNone_iff_eq_none.mp hnone, Option.getD_none]
  · intro xz hxz
    simp [compute_os, paramCheck, hxz, Except.map]

/-- Witness for C1: with `"A"` missing, one warning is emitted, the
resolved assignment gives `"A"` its prior draw, and the call succeeds. -/
theorem compute_os_missing_param_warns_witness :
    (compute_os os2 env2 (some [("B", 2)])).1
        = (os2.param_names.filter (fun n => (lookupParam [("B", 2)] n).isNone)).map missingMsg
    ∧ lookupParam (resolveParams os2 [("B", 2)]) "A" = some (os2.sample "A")
    ∧ (compute_os os2 env2 (some [("B", 2)])).2
        = .ok (buildResult os2 env2 [("B", 2)] [[2], [2]] [[[1]], [[1]]]) :=
  ⟨(compute_os_missing_param_warns os2 env2 [("B", 2)] (by decide)).1,
   (compute_os_missing_param_warns os2 env2 [("B", 2)] (by decide)).2.1 "A" (by decide),
   (compute_os_missing_param_warns os2 env2 [("B", 2)] (by decide)).2.2
     ([[2], [2]], [[[1]], [[1]]]) (computeXZ_eval _)⟩

/-- C9: When `compute_os` is called with no parameter dictionary
(`params=None`), it emits no warning and builds a complete assignment by
drawing a fresh prior sample for every model parameter, from which the
statistic is computed; success of the main solve yields a normal result. -/
theorem compute_os_none_params (os : OSModel) (env : Env) :
    (compute_os os env none).1 = []
    ∧ paramCheck os none = (sampledParams os, [])
    ∧ (∀ n ∈ os.param_names, lookupParam (sampledParams os) n = some (os.sample n))
    ∧ (∀ xz, computeXZ env (resolveParams os (sampledParams os)) = .ok xz →
        (compute_os os env none).2
          = .ok (buildResult os env (sampledParams os) xz.1 xz.2)) := by
  refine ⟨rfl, rfl, ?_, ?_⟩
  · intro n hn
    exact lookupParam_map_self _ _ _ hn
  · intro xz hxz
    simp only [compute_os, paramCheck]
    rw [show (os.param_names.map (fun n => (n, os.sample n))) = sampledParams os from rfl,
      hxz]
    rfl

/-- Witness for C9 at the concrete two-pulsar instance. -/
theorem compute_os_none_params_witness :
    (compute_os os2 env2 none).1 = []
    ∧ lookupParam (sampledParams os2) "A" = some (os2.sample "A")
    ∧ (compute_os os2 env2 none).2
        = .ok (buildResult os2 env2 (sampledParams os2) [[2], [2]] [[[1]], [[1]]]) :=
  ⟨(compute_os_none_params os2 env2).1,
   (compute_os_none_params os2 env2).2.2.1 "A" (by decide),
   (compute_os_none_params os2 env2).2.2.2 ([[2], [2]], [[[1]], [[1]]])
     (computeXZ_eval _)⟩

/-- C3: The per-pulsar solve builds `Sigma = TNT + diag(phiinv)` (or
`TNT + phiinv` for a dense phi-inverse), first attempts the Cholesky
factor-and-solve, retries with the general dense solver exactly when that
attempt raises the numerical-singularity (`LinAlgError`) exception — any
other exception propagates without retry — and an error raised by the dense
fallback itself propagates to the caller uncaught. -/
theorem solveOne_cholesky_fallback (env : Env) (TNr : Vec) (TNT : Mat)
    (FNr : Vec) (FNF FNT : Mat) (phiinv : PhiInv) :
    (∀ v, sigmaOf TNT (.diag v) = matAdd TNT (diagMat v))
    ∧ (∀ m, sigmaOf TNT (.dense m) = matAdd TNT m)
    ∧ (∀ s, choAttempt env (sigmaOf TNT phiinv) TNr FNT = .ok s →
        solveOne env TNr TNT FNr FNF FNT phiinv = .ok (buildXZ FNr FNF FNT s))
    ∧ (choAttempt env (sigmaOf TNT phiinv) TNr FNT = .error .linAlgError →
        solveOne env TNr TNT FNr FNF FNT phiinv
          = (denseAttempt env (sigmaOf TNT phiinv) TNr FNT).map (buildXZ FNr FNF FNT))
    ∧ (∀ e, choAttempt env (sigmaOf TNT phiinv) TNr FNT = .error .linAlgError →
        denseAttempt env (sigmaOf TNT phiinv) TNr FNT = .error e →
        solveOne env TNr TNT FNr FNF FNT phiinv = .error e)
    ∧ (∀ k, choAttempt env (sigmaOf TNT phiinv) TNr FNT = .error (.otherError k) →
        solveOne env TNr TNT FNr FNF FNT phiinv = .error (.otherError k)) := by
  refine ⟨fun v => rfl, fun m => rfl, ?_, ?_, ?_, ?_⟩
  · intro s h
    simp [solveOne, h]
  · intro h
    simp [solveOne, h]
  · intro e h1 h2
    simp [solveOne, h1, h2, Except.map]
  · intro k h
    simp [solveOne, h]

/-- Witness for C3: the Cholesky path is taken when the factorization
succeeds, and with a singular factorization plus a failing dense solver the
fallback's own error propagates. -/
theorem solveOne_cholesky_fallback_witness :
    solveOne env2 [0] [[1]] [2] [[1]] [[0]] (.diag [0])
        = .ok (buildXZ [2] [[1]] [[0]] ([0], [[0]]))
    ∧ solveOne envFail [0] [[1]] [2] [[1]] [[0]] (.diag [0])
        = .error (.otherError 7) :=
  ⟨(solveOne_cholesky_fallback env2 [0] [[1]] [2] [[1]] [[0]] (.diag [0])).2.2.1
      ([0], [[0]]) rfl,
   (solveOne_cholesky_fallback envFail [0] [[1]] [2] [[1]] [[0]] (.diag [0])).2.2.2.2.1
      (.otherError 7) rfl rfl⟩

/-- With an explicit name list, the loop dict at iteration `m` is the
truncating zip of the names with the `m`-th drawn row. -/
theorem margPars_some (env : Env) (chain : List (List ℚ)) (ns : List String) :
    ∀ (m : ℕ) (r : ℕ → ℕ) (sp : Params),
      margPars env chain (some ns) r sp m = zipToDict ns (rowVals chain (r m)) := by
  intro m
  induction m with
  | zero => intro r sp; rfl
  | succ m ih => intro r sp; exact ih _ _

/-- Unfolding a successful run of the marginalization loop: the result
lists have one entry per iteration, and the `m`-th entries are the `OS`
and `OS/OS_sig` of the `compute_os` call at the `m`-th loop dict. -/
theorem margGo_ok_spec (os : OSModel) (env : Env) (chain : List (List ℚ))
    (pnames? : Option (List String)) :
    ∀ (k : ℕ) (r : ℕ → ℕ) (sp : Params) (w : List String) (o s : List ℚ),
      margGo os env chain pnames? k r sp = (w, .ok (o, s)) →
      o.length = k ∧ s.length = k
      ∧ ∀ m, m < k → ∃ res w2,
          compute_os os env (some (margPars env chain pnames? r sp m)) = (w2, .ok res)
          ∧ o.getD m 0 = res.OS ∧ s.getD m 0 = res.OS / res.OS_sig := by
  intro k
  induction k with
  | zero =>
      intro r sp w o s h
      simp only [margGo, Prod.mk.injEq, Except.ok.injEq] at h
      obtain ⟨h1, h2, h3⟩ := h
      subst h2; subst h3
      exact ⟨rfl, rfl, fun m hm => absurd hm (Nat.not_lt_zero m)⟩
  | succ k ih =>
      intro r sp w o s h
      simp only [margGo] at h
      cases hc : (compute_os os env
          (some (setparsFor env pnames? sp (rowVals chain (r 0))))).2 with
      | error e =>
          rw [hc] at h
          simp at h
      | ok res =>
          rw [hc] at h
          rcases hR : margGo os env chain pnames? k (fun i => r (i + 1))
              (setparsFor env pnames? sp (rowVals chain (r 0))) with ⟨w2, r2⟩
          rw [hR] at h
          cases r2 with
          | error e2 => simp [Except.map] at h
          | ok pq =>
              simp only [Except.map, Prod.mk.injEq, Except.ok.injEq] at h
              obtain ⟨hw, ho, hs⟩ := h
              subst ho; subst hs
              obtain ⟨hl1, hl2, hrec⟩ := ih (fun i => r (i + 1))
                (setparsFor env pnames? sp (rowVals chain (r 0))) w2 pq.1 pq.2
                (by rw [hR])
              refine ⟨by simp [hl1], by simp [hl2], ?_⟩
              intro m hm
              cases m with
              | zero =>
                  refine ⟨res, (compute_os os env
                    (some (setparsFor env pnames? sp (rowVals chain (r 0))))).1, ?_, rfl, rfl⟩
                  rw [← hc]
                  exact Prod.mk.eta.symm
              | succ m =>
                  obtain ⟨res2, w3, hcall, ho2, hs2⟩ := hrec m (by omega)
                  exact ⟨res2, w3, hcall, by simpa using ho2, by simpa using hs2⟩

theorem rowVals_chainEx_zero : rowVals chainEx 0 = [1, 2] := by decide

theorem rowVals_chainEx_one : rowVals chainEx 1 = [3, 4] := by decide

theorem argmax_chainEx : argmaxIdx (llCol chainEx) = 1 := by decide

theorem chainWarn_chainEx : chainWarn os2 chainEx = [] := by decide

theorem paramCheck_pair (a b : ℚ) :
    paramCheck os2 (some [("A", a), ("B", b)]) = ([("A", a), ("B", b)], []) := by
  simp [paramCheck, os2_param_names, lookupParam]

theorem compute_os_eval_pair (a b : ℚ) :
    compute_os os2 env2 (some [("A", a), ("B", b)])
      = ([], .ok ⟨[0], [4], [1], 2, 1/2⟩) := by
  simp [compute_os, paramCheck_pair, computeXZ_eval, buildResult_eval, Except.map]

theorem marg_driver_eval :
    compute_noise_marginalized_os os2 env2 chainEx (some ["A", "B"]) 1 (fun _ => 0)
      = ([], .ok ([2], [4])) := by
  norm_num [compute_noise_marginalized_os, margGo, chainWarn_chainEx,
    rowVals_chainEx_zero, setparsFor, zipToDict, compute_os_eval_pair, Except.map]

theorem max_driver_eval :
    compute_noise_maximized_os os2 env2 chainEx (some ["A", "B"])
      = ([], .ok ([0], [4], [1], 2, 4)) := by
  norm_num [compute_noise_maximized_os, chainWarn_chainEx, argmax_chainEx,
    rowVals_chainEx_one, setparsFor, zipToDict, compute_os_eval_pair, Except.map]

/-- C7: The noise-marginalized mode returns OS and SNR sequences of
length exactly `N` in draw order: `N = 0` yields two empty arrays, and the
`m`-th entries of a successful run come from the `compute_os` call at the
parameter dictionary built from the `m`-th randomly drawn chain row (the
index stream modelling `np.random.randint`, so indices may repeat); with an
explicit name list the `m`-th dictionary is exactly the zip of the names
with row `r m`. -/
theorem marginalized_draw_sequence (os : OSModel) (env : Env)
    (chain : List (List ℚ)) (pnames? : Option (List String)) (NN : ℕ)
    (randIdx : ℕ → ℕ) :
    (compute_noise_marginalized_os os env chain pnames? 0 randIdx).2 = .ok ([], [])
    ∧ (∀ w o s,
        compute_noise_marginalized_os os env chain pnames? NN randIdx = (w, .ok (o, s)) →
        o.length = NN ∧ s.length = NN
        ∧ ∀ m, m < NN → ∃ res w2,
            compute_os os env (some (margPars env chain pnames? randIdx [] m))
              = (w2, .ok res)
            ∧ o.getD m 0 = res.OS ∧ s.getD m 0 = res.OS / res.OS_sig)
    ∧ (∀ ns r sp m, margPars env chain (some ns) r sp m
        = zipToDict ns (rowVals chain (r m))) := by
  refine ⟨rfl, ?_, fun ns r sp m => margPars_some env chain ns m r sp⟩
  intro w o s h
  have h2 : (margGo os env chain pnames? NN randIdx []).2 = .ok (o, s) :=
    congrArg Prod.snd h
  exact margGo_ok_spec os env chain pnames? NN randIdx [] _ o s (by rw [← h2])

/-- Witness for C7 at a concrete two-row chain: `N = 0` gives empty arrays
and the `N = 1` run returns length-1 arrays. -/
theorem marginalized_draw_sequence_witness :
    (compute_noise_marginalized_os os2 env2 chainEx (some ["A", "B"]) 0 (fun _ => 0)).2
        = .ok ([], [])
    ∧ ([2] : List ℚ).length = 1 ∧ ([4] : List ℚ).length = 1 :=
  ⟨(marginalized_draw_sequence os2 env2 chainEx (some ["A", "B"]) 0 (fun _ => 0)).1,
   ((marginalized_draw_sequence os2 env2 chainEx (some ["A", "B"]) 1 (fun _ => 0)).2.1
      [] [2] [4] marg_driver_eval).1,
   ((marginalized_draw_sequence os2 env2 chainEx (some ["A", "B"]) 1 (fun _ => 0)).2.1
      [] [2] [4] marg_driver_eval).2.1⟩

/-- C4: In both driver modes every returned signal-to-noise value is
exactly `OS / OS_sig` of the corresponding `compute_os` result: entry `m`
of the marginalized SNR array is `res.OS / res.OS_sig` for the `m`-th
call's result `res`, and the maximized mode returns the tuple
`(xi, rho, sig, OS, OS/OS_sig)` of its single call; the SNR is derived
from those two values, never produced independently. -/
theorem snr_is_os_over_sigma (os : OSModel) (env : Env) (chain : List (List ℚ))
    (pnames? : Option (List String)) :
    (∀ NN randIdx w o s res w2 m, m < NN →
        compute_noise_marginalized_os os env chain pnames? NN randIdx = (w, .ok (o, s)) →
        compute_os os env (some (margPars env chain pnames? randIdx [] m)) = (w2, .ok res) →
        o.getD m 0 = res.OS ∧ s.getD m 0 = res.OS / res.OS_sig)
    ∧ (∀ w t res w2,
        compute_noise_maximized_os os env chain pnames? = (w, .ok t) →
        compute_os os env (some (setparsFor env pnames? []
            (rowVals chain (argmaxIdx (llCol chain))))) = (w2, .ok res) →
        t = (res.xi, res.rho, res.sig, res.OS, res.OS / res.OS_sig)) := by
  constructor
  · intro NN randIdx w o s res w2 m hm h hcall
    have h2 : (margGo os env chain pnames? NN randIdx []).2 = .ok (o, s) :=
      congrArg Prod.snd h
    obtain ⟨_, _, hrec⟩ := margGo_ok_spec os env chain pnames? NN randIdx [] _ o s
      (by rw [← h2])
    obtain ⟨res2, w3, hcall2, ho2, hs2⟩ := hrec m hm
    rw [hcall] at hcall2
    simp only [Prod.mk.injEq, Except.ok.injEq] at hcall2
    rw [hcall2.2]
    exact ⟨ho2, hs2⟩
  · intro w t res w2 h hcall
    simp only [compute_noise_maximized_os] at h
    rw [hcall] at h
    simp only [Except.map, Prod.mk.injEq, Except.ok.injEq] at h
    exact h.2.symm

/-- Witness for C4: at the concrete chain, the marginalized SNR entry is
`2 / (1/2) = 4` and the maximized tuple carries `OS/OS_sig` in its last
component. -/
theorem snr_is_os_over_sigma_witness :
    (([2] : List ℚ).getD 0 0 = (⟨[0], [4], [1], 2, 1/2⟩ : OSResult).OS
      ∧ ([4] : List ℚ).getD 0 0 = (⟨[0], [4], [1], 2, 1/2⟩ : OSResult).OS
          / (⟨[0], [4], [1], 2, 1/2⟩ : OSResult).OS_sig)
    ∧ (([0], [4], [1], (2 : ℚ), (4 : ℚ)) : List ℚ × List ℚ × List ℚ × ℚ × ℚ)
        = ((⟨[0], [4], [1], 2, 1/2⟩ : OSResult).xi,
           (⟨[0], [4], [1], 2, 1/2⟩ : OSResult).rho,
           (⟨[0], [4], [1], 2, 1/2⟩ : OSResult).sig,
           (⟨[0], [4], [1], 2, 1/2⟩ : OSResult).OS,
           (⟨[0], [4], [1], 2, 1/2⟩ : OSResult).OS
             / (⟨[0], [4], [1], 2, 1/2⟩ : OSResult).OS_sig) :=
  ⟨(snr_is_os_over_sigma os2 env2 chainEx (some ["A", "B"])).1
      1 (fun _ => 0) [] [2] [4] ⟨[0], [4], [1], 2, 1/2⟩ [] 0 (by decide)
      marg_driver_eval (compute_os_eval_pair 1 2),
   (snr_is_os_over_sigma os2 env2 chainEx (some ["A", "B"])).2
      [] ([0], [4], [1], 2, 4) ⟨[0], [4], [1], 2, 1/2⟩ []
      max_driver_eval (compute_os_eval_pair 3 4)⟩

/-- C10: With an explicit `param_names` list the name-to-value mapping
of both driver modes is `dict(zip(names, row))`: it pairs names with values
up to the shorter length, silently dropping the excess, raises nothing at
the mapping step, and the only warning emitted ahead of it is the
column-count warning (present exactly when the chain's column count minus
4 differs from the model's parameter count). -/
theorem explicit_param_names_zip (os : OSModel) (env : Env)
    (chain : List (List ℚ)) (ns : List String) :
    (∀ vals : List ℚ, (zipToDict ns vals).length = min ns.length vals.length)
    ∧ (∀ sp vals, setparsFor env (some ns) sp vals = zipToDict ns vals)
    ∧ (∀ r sp m, margPars env chain (some ns) r sp m
        = zipToDict ns (rowVals chain (r m)))
    ∧ ((compute_noise_maximized_os os env chain (some ns)).1
        = chainWarn os chain
          ++ (compute_os os env
              (some (zipToDict ns (rowVals chain (argmaxIdx (llCol chain)))))).1)
    ∧ (chainWarn os chain
        = if (nCols chain : ℤ) - 4 ≠ os.param_names.length then [chainMsg] else []) := by
  refine ⟨?_, fun sp vals => rfl,
    fun r sp m => margPars_some env chain ns m r sp, rfl, rfl⟩
  intro vals
  simp [zipToDict, List.length_zip]

/-- Agreement on every white-noise parameter value gives equal cache
keys. -/
theorem cacheKey_eq_of_agree (ws : List String) (p1 p2 : Params)
    (h : ∀ n ∈ ws, lookupParam p1 n = lookupParam p2 n) :
    cacheKey ws p1 = cacheKey ws p2 := by
  simp only [cacheKey]
  exact List.map_congr_left h

/-- A differing white-noise parameter value gives distinct cache keys. -/
theorem cacheKey_ne (ws : List String) (p1 p2 : Params)
    (h : ∃ n ∈ ws, lookupParam p1 n ≠ lookupParam p2 n) :
    cacheKey ws p1 ≠ cacheKey ws p2 := by
  rcases h with ⟨n, hn, hne⟩
  intro he
  simp only [cacheKey] at he
  exact hne (List.map_eq_map_iff.mp he n hn)

/-- C8: Two `get_FNF` calls whose assignments agree on all white-noise
parameter values share the cached result — the second call returns the
identical stored value and leaves the cache untouched, whatever the other
parameters do — while a change to a white-noise value misses the cache and
recomputes; `get_TNr`/`get_TNT` delegate directly to the noise-model
adapter with no cache state of their own. -/
theorem get_FNF_cache_correct (na : NoiseAdapter) (p1 p2 : Params) :
    ((∀ n ∈ na.white_params, lookupParam p1 n = lookupParam p2 n) →
        get_FNF na p2 (get_FNF na p1 []).2 = get_FNF na p1 [])
    ∧ ((∃ n ∈ na.white_params, lookupParam p1 n ≠ lookupParam p2 n) →
        get_FNF na p2 (get_FNF na p1 []).2
          = (na.rawFNF p2,
             (cacheKey na.white_params p2, na.rawFNF p2) :: (get_FNF na p1 []).2))
    ∧ (get_FNF na p1 []).1 = na.rawFNF p1
    ∧ (∀ p, get_TNr na p = na.rawTNr p)
    ∧ (∀ p, get_TNT na p = na.rawTNT p) := by
  refine ⟨?_, ?_, rfl, fun p => rfl, fun p => rfl⟩
  · intro hagree
    have hk := cacheKey_eq_of_agree na.white_params p1 p2 hagree
    simp [get_FNF, findCached, hk]
  · intro hdis
    have hk := cacheKey_ne na.white_params p1 p2 hdis
    simp [get_FNF, findCached, hk]

/-- Witness for C8: a hit across a change of the non-white parameter
`"x"`, a recomputation across a change of the white parameter `"wn"`, and
direct delegation of `get_TNr`. -/
theorem get_FNF_cache_correct_witness :
    get_FNF na0 [("wn", 1), ("x", 9)] (get_FNF na0 [("wn", 1), ("x", 5)] []).2
        = get_FNF na0 [("wn", 1), ("x", 5)] []
    ∧ (get_FNF na0 [("wn", 2), ("x", 5)] (get_FNF na0 [("wn", 1), ("x", 5)] []).2).1
        = na0.rawFNF [("wn", 2), ("x", 5)]
    ∧ get_TNr na0 [("wn", 1), ("x", 5)] = na0.rawTNr [("wn", 1), ("x", 5)] :=
  ⟨(get_FNF_cache_correct na0 [("wn", 1), ("x", 5)] [("wn", 1), ("x", 9)]).1 (by decide),
   congrArg Prod.fst
     ((get_FNF_cache_correct na0 [("wn", 1), ("x", 5)] [("wn", 2), ("x", 5)]).2.1
       ⟨"wn", by decide, by decide⟩),
   (get_FNF_cache_correct na0 [("wn", 1), ("x", 5)] [("wn", 1), ("x", 5)]).2.2.2.1
     [("wn", 1), ("x", 5)]⟩

end OptStat
